import Mathlib

/-!
Shallow embedding of the WebP-to-JPEG conversion pipeline of `src/main.py`
(Flask application "Converter").

Modelling conventions:
* byte buffers are `List Nat`;
* the external libraries (PIL, `zipfile`, `rarfile`, `py7zr`) enter through an
  explicit record of functions (`Libs`); an operation of a library that can
  raise is modelled with `Option` (`none` = the call raises an exception);
* a Python loop whose body can raise is modelled with `Except Unit`
  (`Except.error ()` = an exception escapes the loop, discarding its local
  state), and a `try/except` block turns that error back into a value;
* PIL images are records carrying the mode string, the dimensions and the
  decoded pixels (palette entries already resolved to their colours).
-/

namespace Converter

/-- Byte buffer contents. -/
abbrev Bytes := List Nat

/-- Python `str.lower()` restricted to the ASCII file names handled here. -/
def lowerStr (s : String) : String := ⟨s.data.map Char.toLower⟩

/-- Python `str.endswith(suffix)` as a suffix test on the character lists. -/
def endsWithStr (s suffix : String) : Bool := suffix.data.isSuffixOf s.data

/-- Python `os.path.basename`: the part of the name after the last `/`. -/
def basename (s : String) : String :=
  ⟨(s.data.reverse.takeWhile (fun c => c != '/')).reverse⟩

/-- Core of Python `os.path.splitext` on a character list: the extension is the
suffix starting at the last `.`, provided that dot lies after the last `/` and
that some character strictly between them is not a dot (leading dots of the
base name never open an extension, e.g. `.bashrc` has none). -/
def splitextCore (cs : List Char) : List Char × List Char :=
  match cs.reverse.dropWhile (fun c => c != '.' && c != '/') with
  | [] => (cs, [])
  | c :: beforeRev =>
    if c = '.' then
      if (beforeRev.takeWhile (fun b => b != '/')).any (fun b => b != '.') then
        (beforeRev.reverse,
          '.' :: (cs.reverse.takeWhile (fun b => b != '.' && b != '/')).reverse)
      else (cs, [])
    else (cs, [])

/-- Python `os.path.splitext` on strings. -/
def splitext (s : String) : String × String :=
  (⟨(splitextCore s.data).1⟩, ⟨(splitextCore s.data).2⟩)

/-- One pixel as PIL exposes it after decoding: channel values and the alpha
channel (`a = 255` where the mode carries no transparency). -/
structure Pixel where
  r : Nat
  g : Nat
  b : Nat
  a : Nat
deriving DecidableEq

/-- A decoded PIL image: its mode string, its dimensions, its pixels. -/
structure PILImage where
  mode : String
  width : Nat
  height : Nat
  pixels : List Pixel
deriving DecidableEq

/-- One archive entry as the container libraries expose it: the full entry
name and its decompressed bytes; `none` models an entry whose read raises. -/
structure Entry where
  name : String
  content : Option Bytes
deriving DecidableEq

/-- The external libraries the pipeline calls, as explicit parameters: the
three container parsers return the entry list of an archive (`none`: opening
the container raises), `decodeImage` is `PIL.Image.open` (`none`: the bytes do
not decode), `encodeJPEG` is `Image.save(..., "JPEG", quality=100)` on an RGB
image (`none`: encoding raises). -/
structure Libs where
  zipParse : Bytes → Option (List Entry)
  rarParse : Bytes → Option (List Entry)
  szParse : Bytes → Option (List Entry)
  decodeImage : Bytes → Option PILImage
  encodeJPEG : PILImage → Option Bytes

/-- Per-channel linear blend toward white under alpha `a`: what pasting with
the alpha channel as mask does against a white background. -/
def blendWhite (c a : Nat) : Nat := (c * a + 255 * (255 - a)) / 255

/-- Pasting one pixel onto the white canvas with the alpha channel as mask. -/
def pasteMasked (p : Pixel) : Pixel :=
  ⟨blendWhite p.r p.a, blendWhite p.g p.a, blendWhite p.b p.a, 255⟩

/-- Pasting one pixel onto the white canvas with no mask: the pixel fully
replaces the canvas, its transparency is dropped. -/
def pastePlain (p : Pixel) : Pixel := ⟨p.r, p.g, p.b, 255⟩

/-- An opaque white RGB canvas of the image dimensions with the image pixels
composited through the alpha channel as blend mask. -/
def whiteCanvasBlend (img : PILImage) : PILImage :=
  ⟨"RGB", img.width, img.height, img.pixels.map pasteMasked⟩

/-- An opaque white RGB canvas of the image dimensions with the image pixels
pasted directly, without alpha blending. -/
def whiteCanvasPaste (img : PILImage) : PILImage :=
  ⟨"RGB", img.width, img.height, img.pixels.map pastePlain⟩

/-- Embedding of `convert_to_rgb` of main.py: RGBA, LA and P images land on a white RGB
canvas (RGBA through the alpha mask, the others by a direct paste); every
other mode is returned unchanged. -/
def convert_to_rgb (image : PILImage) : PILImage :=
  if image.mode = "RGBA" ∨ image.mode = "LA" ∨ image.mode = "P" then
    if image.mode = "RGBA" then
      { mode := "RGB", width := image.width, height := image.height,
        pixels := image.pixels.map pasteMasked }
    else
      { mode := "RGB", width := image.width, height := image.height,
        pixels := image.pixels.map pastePlain }
  else image

/-- Embedding of `convert_webp_to_jpeg` of main.py: decode the buffer, normalize the colour
mode, encode as JPEG; `none` models the exceptions the function may raise. -/
def convert_webp_to_jpeg (L : Libs) (webp_data : Bytes) : Option Bytes :=
  match L.decodeImage webp_data with
  | none => none
  | some image => L.encodeJPEG (convert_to_rgb image)

/-- Embedding of `_extract_from_zip` of main.py: walk `namelist()` in listing order and
read every entry whose lowercased name ends in `.webp`; a raising read aborts
the whole loop and the partial list is lost with it. -/
def extractFromZip : List Entry → Except Unit (List (String × Bytes))
  | [] => .ok []
  | e :: rest =>
    if endsWithStr (lowerStr e.name) ".webp" then
      match e.content with
      | none => .error ()
      | some webp_data =>
        match extractFromZip rest with
        | .error err => .error err
        | .ok images => .ok ((basename e.name, webp_data) :: images)
    else extractFromZip rest

/-- Embedding of `_extract_from_rar` of main.py: textually the same loop as the ZIP one,
over the RAR listing. -/
def extractFromRar : List Entry → Except Unit (List (String × Bytes))
  | [] => .ok []
  | e :: rest =>
    if endsWithStr (lowerStr e.name) ".webp" then
      match e.content with
      | none => .error ()
      | some webp_data =>
        match extractFromRar rest with
        | .error err => .error err
        | .ok images => .ok ((basename e.name, webp_data) :: images)
    else extractFromRar rest

/-- Model of `py7zr.SevenZipFile.readall()`: decompress every entry of the container in
listing order; it raises as soon as any entry is unreadable. -/
def readAll : List Entry → Option (List (String × Bytes))
  | [] => some []
  | e :: rest =>
    match e.content, readAll rest with
    | some d, some files => some ((e.name, d) :: files)
    | _, _ => none

/-- The per-entry filter of `_extract_from_7z`: keep `(basename, bytes)` of a
name that lowercased ends in `.webp`, drop anything else. -/
def webpPair (nd : String × Bytes) : Option (String × Bytes) :=
  if endsWithStr (lowerStr nd.1) ".webp" then some (basename nd.1, nd.2) else none

/-- Embedding of `_extract_from_7z` of main.py: `readall()` first (so any unreadable entry
aborts everything), then filter the decompressed files for `.webp` names. -/
def extractFrom7z (entries : List Entry) : Except Unit (List (String × Bytes)) :=
  match readAll entries with
  | none => .error ()
  | some files => .ok (files.filterMap webpPair)

/-- The `try/except` of `extract_webp_from_archive` around one backend: open
the container (`none`: the constructor raises) and run the extraction loop;
any exception is caught, logged, and leaves `images` at its initial value
`[]`, so a failure part-way discards everything read before it. -/
def tryExtract (parsed : Option (List Entry))
    (loop : List Entry → Except Unit (List (String × Bytes))) :
    List (String × Bytes) :=
  match parsed with
  | none => []
  | some entries =>
    match loop entries with
    | .ok images => images
    | .error _ => []

/-- Embedding of `extract_webp_from_archive` of main.py: dispatch on the lowercased suffix
of the file name, open the container with the matching library and run its
extraction loop inside one `try/except` that logs and returns. -/
def extract_webp_from_archive (L : Libs) (file_data : Bytes)
    (filename : String) : List (String × Bytes) :=
  let file_lower := lowerStr filename
  if endsWithStr file_lower ".zip" then
    tryExtract (L.zipParse file_data) extractFromZip
  else if endsWithStr file_lower ".rar" then
    tryExtract (L.rarParse file_data) extractFromRar
  else if endsWithStr file_lower ".7z" then
    tryExtract (L.szParse file_data) extractFrom7z
  else []

/-- One uploaded multipart item: its client-supplied file name and bytes. -/
structure UploadItem where
  filename : String
  content : Bytes
deriving DecidableEq

/-- The conversion loop of `process_archive_file` over the extracted images:
convert each, name it `stem + ".jpg"`, and on a per-image failure log and
skip it, continuing with the remaining images. -/
def convertExtracted (L : Libs) : List (String × Bytes) → List (String × Bytes)
  | [] => []
  | (filename, webp_data) :: rest =>
    match convert_webp_to_jpeg L webp_data with
    | some jpeg_data =>
      ((splitext filename).1 ++ ".jpg", jpeg_data) :: convertExtracted L rest
    | none => convertExtracted L rest

/-- Embedding of `process_archive_file` of main.py: read the upload, extract the WebP
entries, convert each with per-image failure tolerance. -/
def process_archive_file (L : Libs) (uploaded_file : UploadItem) :
    List (String × Bytes) :=
  convertExtracted L
    (extract_webp_from_archive L uploaded_file.content uploaded_file.filename)

/-- Embedding of `process_webp_file` of main.py: convert one bare WebP upload; on failure
log and contribute nothing. -/
def process_webp_file (L : Libs) (uploaded_file : UploadItem) :
    List (String × Bytes) :=
  match convert_webp_to_jpeg L uploaded_file.content with
  | some jpeg_data =>
    [((splitext uploaded_file.filename).1 ++ ".jpg", jpeg_data)]
  | none => []

/-- The `zipfile.writestr` loop of `create_zip_response`: the ZIP listing
holds the written entries in write order; the container accepts duplicate
names, nothing is merged or renamed. -/
def zipWrite : List (String × Bytes) → List (String × Bytes)
  | [] => []
  | (filename, img_data) :: rest => (filename, img_data) :: zipWrite rest

/-- The response payload handed back to the HTTP layer, per section 4.4 of the
design: both 400 branches of the route surface as the `empty` payload. -/
inductive OutputPayload where
  | empty : OutputPayload
  | single (downloadName : String) (mimetype : String) (data : Bytes) : OutputPayload
  | archive (downloadName : String) (mimetype : String)
      (entries : List (String × Bytes)) : OutputPayload
deriving DecidableEq

/-- Embedding of `create_zip_response` of main.py: serialize every converted image into a
fresh in-memory ZIP and ship it under the fixed bundle name. -/
def create_zip_response (converted_images : List (String × Bytes)) : OutputPayload :=
  .archive "converted_images.zip" "application/zip" (zipWrite converted_images)

/-- The body of the aggregation loop of the `/convert` route for one uploaded
item: skip empty file names, send archive suffixes to the archive path, the
`.webp` suffix to the bare path, anything else contributes nothing. -/
def processItem (L : Libs) (uploaded_file : UploadItem) : List (String × Bytes) :=
  if uploaded_file.filename = "" then []
  else
    let filename_lower := lowerStr uploaded_file.filename
    if endsWithStr filename_lower ".zip" || endsWithStr filename_lower ".rar"
        || endsWithStr filename_lower ".7z" then
      process_archive_file L uploaded_file
    else if endsWithStr filename_lower ".webp" then
      process_webp_file L uploaded_file
    else []

/-- The aggregation loop of the `/convert` route: `converted_images` starts
empty and is extended once per uploaded item, in upload order. -/
def aggregate (L : Libs) (files : List UploadItem) : List (String × Bytes) :=
  files.foldl (fun converted_images f => converted_images ++ processItem L f) []

/-- The response selection at the end of the `/convert` route as a function of
the aggregate list alone: empty list is HTTP 400, a singleton is the single
JPEG, anything longer is the ZIP bundle. -/
def respond (converted_images : List (String × Bytes)) : OutputPayload :=
  match converted_images with
  | [] => .empty
  | [(filename, img_data)] => .single filename "image/jpeg" img_data
  | _ => create_zip_response converted_images

/-- The `/convert` route of main.py: reject an empty upload list with HTTP
400, aggregate the items, then route on the cardinality of the aggregate. -/
def convert (L : Libs) (files : List UploadItem) : OutputPayload :=
  if files.isEmpty then .empty
  else
    match aggregate L files with
    | [] => .empty
    | [(filename, img_data)] => .single filename "image/jpeg" img_data
    | rest => create_zip_response rest

/-- The spec-side characterization of one backend emission: an entry whose
lowercased name ends in `.webp` contributes `(basename, bytes)`, any other
entry is skipped. -/
def entryWebp (e : Entry) : Option (String × Bytes) :=
  if endsWithStr (lowerStr e.name) ".webp" then
    e.content.map (fun d => (basename e.name, d))
  else none

/-- A 1x1 RGBA test image. -/
def sampleRGBA : PILImage := ⟨"RGBA", 1, 1, [⟨10, 20, 30, 255⟩]⟩

/-- A 1x1 palette test image. -/
def sampleP : PILImage := ⟨"P", 1, 1, [⟨10, 20, 30, 255⟩]⟩

/-- A 1x1 RGB test image. -/
def sampleRGB : PILImage := ⟨"RGB", 1, 1, [⟨10, 20, 30, 255⟩]⟩

/-- A library record whose every call fails; used to instantiate theorems at
concrete inputs that never reach the libraries. -/
def noLibs : Libs :=
  ⟨fun _ => none, fun _ => none, fun _ => none, fun _ => none, fun _ => none⟩

/-- A library record that decodes anything to the RGB test image and encodes
any image to `[9]`; used to instantiate theorems at concrete inputs. -/
def webpLibs : Libs :=
  ⟨fun _ => none, fun _ => none, fun _ => none,
   fun _ => some sampleRGB, fun _ => some [9]⟩

/-- Libraries for the C6 witness: a ZIP with a convertible and a corrupt
WebP entry. -/
def mixedZipLibs : Libs :=
  ⟨fun _ => some [⟨"good.webp", some [1]⟩, ⟨"bad.webp", some [2]⟩],
   fun _ => none, fun _ => none,
   fun b => if b = [1] then some sampleRGB else none,
   fun _ => some [9]⟩

end Converter


namespace Converter

section ListHelpers

variable {alpha : Type} {p : alpha → Bool}

lemma takeWhile_all : ∀ {l : List alpha}, (∀ c ∈ l, p c = true) → l.takeWhile p = l
  | [], _ => rfl
  | c :: l, h => by
    have hc : p c = true := h c (List.mem_cons_self c l)
    simp only [List.takeWhile_cons, hc, if_true]
    rw [takeWhile_all (fun d hd => h d (List.mem_cons_of_mem c hd))]

lemma takeWhile_append_all : ∀ {l1 l2 : List alpha}, (∀ c ∈ l1, p c = true) →
    (l1 ++ l2).takeWhile p = l1 ++ l2.takeWhile p
  | [], l2, _ => rfl
  | c :: l1, l2, h => by
    have hc : p c = true := h c (List.mem_cons_self c l1)
    simp only [List.cons_append, List.takeWhile_cons, hc, if_true]
    rw [takeWhile_append_all (fun d hd => h d (List.mem_cons_of_mem c hd))]

lemma dropWhile_append_all : ∀ {l1 l2 : List alpha}, (∀ c ∈ l1, p c = true) →
    (l1 ++ l2).dropWhile p = l2.dropWhile p
  | [], l2, _ => rfl
  | c :: l1, l2, h => by
    have hc : p c = true := h c (List.mem_cons_self c l1)
    simp only [List.cons_append, List.dropWhile_cons, hc, if_true]
    exact dropWhile_append_all (fun d hd => h d (List.mem_cons_of_mem c hd))

end ListHelpers

lemma splitextCore_concat (xs es : List Char) (hx1 : '/' ∉ xs)
    (hx2 : ∃ c ∈ xs, c ≠ '.') (he1 : '.' ∉ es) (he2 : '/' ∉ es) :
    splitextCore (xs ++ '.' :: es) = (xs, '.' :: es) := by
  have hall : ∀ c ∈ es.reverse, (c != '.' && c != '/') = true := by
    intro c hc
    rw [List.mem_reverse] at hc
    simp only [Bool.and_eq_true, bne_iff_ne, ne_eq]
    exact ⟨fun h => he1 (h ▸ hc), fun h => he2 (h ▸ hc)⟩
  have hrev : (xs ++ '.' :: es).reverse = es.reverse ++ '.' :: xs.reverse := by
    rw [List.reverse_append, List.reverse_cons, List.append_assoc,
      List.singleton_append]
  have hdrop : (xs ++ '.' :: es).reverse.dropWhile (fun c => c != '.' && c != '/')
      = '.' :: xs.reverse := by
    rw [hrev, dropWhile_append_all hall, List.dropWhile_cons]
    simp
  have htake : (xs ++ '.' :: es).reverse.takeWhile (fun b => b != '.' && b != '/')
      = es.reverse := by
    rw [hrev, takeWhile_append_all hall, List.takeWhile_cons]
    simp
  have hcond : (xs.reverse.takeWhile (fun b => b != '/')).any (fun b => b != '.')
      = true := by
    have : xs.reverse.takeWhile (fun b => b != '/') = xs.reverse := by
      refine takeWhile_all (fun c hc => ?_)
      rw [List.mem_reverse] at hc
      simp only [bne_iff_ne, ne_eq]
      exact fun h => hx1 (h ▸ hc)
    rw [this, List.any_eq_true]
    obtain ⟨c, hc, hne⟩ := hx2
    exact ⟨c, List.mem_reverse.mpr hc, by simpa [bne_iff_ne] using hne⟩
  unfold splitextCore
  rw [hdrop]
  simp only [if_true, hcond, htake, List.reverse_reverse, if_pos rfl]

lemma stem_concat (x ext : String) (hx1 : '/' ∉ x.data)
    (hx2 : ∃ c ∈ x.data, c ≠ '.') (he1 : '.' ∉ ext.data) (he2 : '/' ∉ ext.data) :
    (splitext (x ++ "." ++ ext)).1 = x := by
  have hdata : (x ++ "." ++ ext).data = x.data ++ '.' :: ext.data := by
    show (x.data ++ ('.' :: List.nil)) ++ ext.data = x.data ++ '.' :: ext.data
    rw [List.append_assoc, List.singleton_append]
  unfold splitext
  rw [hdata, splitextCore_concat x.data ext.data hx1 hx2 he1 he2]

end Converter


namespace Converter

lemma extractFromZip_ok : ∀ {entries : List Entry},
    (∀ e ∈ entries, e.content.isSome) →
    extractFromZip entries = .ok (entries.filterMap entryWebp)
  | [], _ => rfl
  | e :: rest, h => by
    have hrest := extractFromZip_ok (fun g hg => h g (List.mem_cons_of_mem e hg))
    obtain ⟨d, hd⟩ := Option.isSome_iff_exists.mp (h e (List.mem_cons_self e rest))
    by_cases hw : endsWithStr (lowerStr e.name) ".webp" = true
    · simp [extractFromZip, hw, hd, hrest, List.filterMap_cons, entryWebp]
    · simp [extractFromZip, hw, hrest, List.filterMap_cons, entryWebp]

lemma rar_eq_zip : ∀ entries, extractFromRar entries = extractFromZip entries
  | [] => rfl
  | e :: rest => by
    by_cases hw : endsWithStr (lowerStr e.name) ".webp" = true
    · simp [extractFromRar, extractFromZip, hw, rar_eq_zip rest]
    · simp [extractFromRar, extractFromZip, hw, rar_eq_zip rest]

lemma readAll_ok : ∀ {entries : List Entry},
    (∀ e ∈ entries, e.content.isSome) →
    readAll entries = some (entries.map (fun e => (e.name, e.content.getD [])))
  | [], _ => rfl
  | e :: rest, h => by
    have hrest := readAll_ok (fun g hg => h g (List.mem_cons_of_mem e hg))
    obtain ⟨d, hd⟩ := Option.isSome_iff_exists.mp (h e (List.mem_cons_self e rest))
    simp [readAll, hd, hrest]

lemma map_filterMap_webp : ∀ {entries : List Entry},
    (∀ e ∈ entries, e.content.isSome) →
    (entries.map (fun e => (e.name, e.content.getD []))).filterMap webpPair
      = entries.filterMap entryWebp
  | [], _ => rfl
  | e :: rest, h => by
    have hrest := map_filterMap_webp (fun g hg => h g (List.mem_cons_of_mem e hg))
    obtain ⟨d, hd⟩ := Option.isSome_iff_exists.mp (h e (List.mem_cons_self e rest))
    by_cases hw : endsWithStr (lowerStr e.name) ".webp" = true
    · simp [webpPair, entryWebp, hw, hd, hrest, List.filterMap_cons]
    · simp [webpPair, entryWebp, hw, hd, hrest, List.filterMap_cons]

lemma extractFrom7z_ok {entries : List Entry}
    (h : ∀ e ∈ entries, e.content.isSome) :
    extractFrom7z entries = .ok (entries.filterMap entryWebp) := by
  unfold extractFrom7z
  rw [readAll_ok h]
  exact congrArg Except.ok (map_filterMap_webp h)

end Converter


namespace Converter

lemma zipWrite_id : ∀ l, zipWrite l = l
  | [] => rfl
  | (filename, img_data) :: rest => by
    simp [zipWrite, zipWrite_id rest]

lemma convertExtracted_append (L : Libs) : ∀ l1 l2,
    convertExtracted L (l1 ++ l2) = convertExtracted L l1 ++ convertExtracted L l2
  | [], l2 => rfl
  | (n, d) :: l1, l2 => by
    cases hc : convert_webp_to_jpeg L d with
    | none => simp [convertExtracted, hc, convertExtracted_append L l1 l2]
    | some j => simp [convertExtracted, hc, convertExtracted_append L l1 l2]

lemma convertExtracted_eq_filterMap (L : Libs) : ∀ l,
    convertExtracted L l = l.filterMap (fun nd =>
      (convert_webp_to_jpeg L nd.2).map (fun j => ((splitext nd.1).1 ++ ".jpg", j)))
  | [] => rfl
  | (n, d) :: l => by
    cases hc : convert_webp_to_jpeg L d with
    | none =>
      simp [convertExtracted, hc, convertExtracted_eq_filterMap L l,
        List.filterMap_cons]
    | some j =>
      simp [convertExtracted, hc, convertExtracted_eq_filterMap L l,
        List.filterMap_cons]

lemma foldl_extend (L : Libs) : ∀ (files : List UploadItem)
    (acc : List (String × Bytes)),
    files.foldl (fun converted_images f => converted_images ++ processItem L f) acc
      = acc ++ files.foldl
          (fun converted_images f => converted_images ++ processItem L f) []
  | [], acc => by simp
  | f :: rest, acc => by
    simp only [List.foldl_cons, List.nil_append]
    rw [foldl_extend L rest (acc ++ processItem L f),
      foldl_extend L rest (processItem L f), List.append_assoc]

lemma aggregate_cons (L : Libs) (f : UploadItem) (rest : List UploadItem) :
    aggregate L (f :: rest) = processItem L f ++ aggregate L rest := by
  unfold aggregate
  simp only [List.foldl_cons, List.nil_append]
  exact foldl_extend L rest (processItem L f)

lemma aggregate_append (L : Libs) : ∀ l1 l2,
    aggregate L (l1 ++ l2) = aggregate L l1 ++ aggregate L l2
  | [], l2 => rfl
  | f :: l1, l2 => by
    rw [List.cons_append, aggregate_cons, aggregate_cons,
      aggregate_append L l1 l2, List.append_assoc]

lemma aggregate_eq_join (L : Libs) : ∀ files,
    aggregate L files = (files.map (processItem L)).flatten
  | [] => rfl
  | f :: rest => by
    rw [aggregate_cons, aggregate_eq_join L rest, List.map_cons, List.flatten_cons]

lemma convert_eq_respond (L : Libs) (files : List UploadItem) :
    convert L files = respond (aggregate L files) := by
  cases files with
  | nil => rfl
  | cons f rest =>
    unfold convert
    simp only [List.isEmpty_cons, Bool.false_eq_true, if_false]
    unfold respond
    cases hagg : aggregate L (f :: rest) with
    | nil => rfl
    | cons p l =>
      obtain ⟨n, d⟩ := p
      cases l with
      | nil => rfl
      | cons q l2 => rfl

end Converter


namespace Converter

lemma convertExtracted_cons_fail (L : Libs) (n : String) (d : Bytes)
    (l : List (String × Bytes)) (h : convert_webp_to_jpeg L d = none) :
    convertExtracted L ((n, d) :: l) = convertExtracted L l := by
  simp [convertExtracted, h]

/-- C1, counterexample to the claim as stated: a ZIP whose first `.webp` entry
reads fine and whose second raises. The entry `("a.webp", [1])` was
successfully read before the failure, yet `extract_webp_from_archive` returns
`[]` — the assignment `images = _extract_from_zip(...)` never completes, so
the partial list is discarded. -/
theorem extract_discards_prefix_on_failure_cex :
    extract_webp_from_archive
      ⟨fun _ => some [⟨"a.webp", some [1]⟩, ⟨"b.webp", none⟩],
       fun _ => none, fun _ => none, fun _ => none, fun _ => none⟩
      [0] "t.zip" = [] ∧
    extractFromZip [⟨"a.webp", some [1]⟩] = .ok [("a.webp", [1])] ∧
    ([] : List (String × Bytes)) ≠ [("a.webp", [1])] :=
  ⟨by decide, by rfl, by decide⟩

/-- C1, amended: `extract_webp_from_archive` never raises — it is a total
function into a list — and on any structural failure (unopenable container or
a raising entry read) it returns the empty list; the entries read before the
failure are discarded. The result is therefore all-or-nothing: a complete
successful extraction, or `[]`. -/
theorem extract_total_all_or_nothing (L : Libs) (file_data : Bytes)
    (filename : String) :
    extract_webp_from_archive L file_data filename = [] ∨
    ∃ entries images,
      ((L.zipParse file_data = some entries ∧
          extractFromZip entries = .ok images) ∨
       (L.rarParse file_data = some entries ∧
          extractFromRar entries = .ok images) ∨
       (L.szParse file_data = some entries ∧
          extractFrom7z entries = .ok images)) ∧
      extract_webp_from_archive L file_data filename = images := by
  have key : ∀ (parsed : Option (List Entry))
      (loop : List Entry → Except Unit (List (String × Bytes))),
      tryExtract parsed loop = [] ∨
      ∃ entries images, parsed = some entries ∧ loop entries = .ok images ∧
        tryExtract parsed loop = images := by
    intro parsed loop
    cases parsed with
    | none => exact Or.inl rfl
    | some entries =>
      cases h : loop entries with
      | error u => exact Or.inl (by simp [tryExtract, h])
      | ok images =>
        exact Or.inr ⟨entries, images, rfl, h, by simp [tryExtract, h]⟩
  unfold extract_webp_from_archive
  by_cases h1 : endsWithStr (lowerStr filename) ".zip" = true
  · simp only [h1, if_true]
    rcases key (L.zipParse file_data) extractFromZip with h | ⟨es, im, hp, hl, he⟩
    · exact Or.inl h
    · exact Or.inr ⟨es, im, Or.inl ⟨hp, hl⟩, he⟩
  · simp only [h1, Bool.false_eq_true, if_false]
    by_cases h2 : endsWithStr (lowerStr filename) ".rar" = true
    · simp only [h2, if_true]
      rcases key (L.rarParse file_data) extractFromRar with h | ⟨es, im, hp, hl, he⟩
      · exact Or.inl h
      · exact Or.inr ⟨es, im, Or.inr (Or.inl ⟨hp, hl⟩), he⟩
    · simp only [h2, Bool.false_eq_true, if_false]
      by_cases h3 : endsWithStr (lowerStr filename) ".7z" = true
      · simp only [h3, if_true]
        rcases key (L.szParse file_data) extractFrom7z with h | ⟨es, im, hp, hl, he⟩
        · exact Or.inl h
        · exact Or.inr ⟨es, im, Or.inr (Or.inr ⟨hp, hl⟩), he⟩
      · simp only [h3, Bool.false_eq_true, if_false]
        exact Or.inl trivial

/-- C2: the `/convert` route factors through the aggregate list — the payload
is `respond` of the aggregate, whatever the original upload shape — and
`respond` routes strictly on cardinality: the empty list gives the Empty
payload (the HTTP 400 branch), a singleton gives a Single payload carrying
that image bytes verbatim under media type `image/jpeg` and its output name,
and a list of two or more gives an Archive payload named
`converted_images.zip` whose ZIP listing is exactly the given name/content
pairs. -/
theorem respond_shape_by_cardinality (L : Libs) (files : List UploadItem)
    (l : List (String × Bytes)) (n : String) (d : Bytes) :
    convert L files = respond (aggregate L files) ∧
    respond [] = .empty ∧
    respond [(n, d)] = .single n "image/jpeg" d ∧
    (2 ≤ l.length →
      respond l = .archive "converted_images.zip" "application/zip" l) := by
  refine ⟨convert_eq_respond L files, rfl, rfl, fun h2 => ?_⟩
  match l with
  | [] => simp at h2
  | [x] => simp at h2
  | (n1, d1) :: (n2, d2) :: rest =>
    show create_zip_response ((n1, d1) :: (n2, d2) :: rest) = _
    unfold create_zip_response
    rw [zipWrite_id]

/-- C2, witness at concrete inputs. -/
theorem respond_shape_by_cardinality_witness :
    convert noLibs [] = respond (aggregate noLibs []) ∧
    respond [("a.jpg", [1]), ("b.jpg", [2])]
      = .archive "converted_images.zip" "application/zip"
          [("a.jpg", [1]), ("b.jpg", [2])] :=
  ⟨(respond_shape_by_cardinality noLibs []
      [("a.jpg", [1]), ("b.jpg", [2])] "x" []).1,
   (respond_shape_by_cardinality noLibs []
      [("a.jpg", [1]), ("b.jpg", [2])] "x" []).2.2.2 (by decide)⟩

/-- C3: when every entry of the container is readable, each of the three
backends emits, in listing order, exactly the entries whose lowercased name
ends in `.webp`, as `(basename, decompressed bytes)` pairs — the basename
strips the directory part and preserves the case of the file name — skipping
every other entry silently. -/
theorem backends_filter_basename_order (entries : List Entry)
    (h : ∀ e ∈ entries, e.content.isSome) :
    extractFromZip entries = .ok (entries.filterMap entryWebp) ∧
    extractFromRar entries = .ok (entries.filterMap entryWebp) ∧
    extractFrom7z entries = .ok (entries.filterMap entryWebp) :=
  ⟨extractFromZip_ok h, (rar_eq_zip entries).trans (extractFromZip_ok h),
   extractFrom7z_ok h⟩

/-- C3, witness on the spec example: `a.webp`, `b.png`, `sub/c.WEBP` yield
exactly `a.webp` and `c.WEBP`, basenamed, with `b.png` excluded. -/
theorem backends_filter_basename_order_witness :
    extractFromZip
        [⟨"a.webp", some [1]⟩, ⟨"b.png", some [2]⟩, ⟨"sub/c.WEBP", some [3]⟩]
      = .ok [("a.webp", [1]), ("c.WEBP", [3])] := by
  rw [(backends_filter_basename_order
    [⟨"a.webp", some [1]⟩, ⟨"b.png", some [2]⟩, ⟨"sub/c.WEBP", some [3]⟩]
    (by decide)).1]
  rfl

/-- C4: colour normalization by mode — an RGBA image is composited onto an
opaque white canvas of the same dimensions through the alpha channel as blend
mask; a P or LA image is pasted directly onto the white canvas with no alpha
blending; any other mode passes through unchanged. -/
theorem convert_to_rgb_mode_cases (image : PILImage) :
    (image.mode = "RGBA" → convert_to_rgb image = whiteCanvasBlend image) ∧
    (image.mode = "P" ∨ image.mode = "LA" →
      convert_to_rgb image = whiteCanvasPaste image) ∧
    (image.mode ≠ "RGBA" → image.mode ≠ "LA" → image.mode ≠ "P" →
      convert_to_rgb image = image) := by
  refine ⟨fun h => ?_, fun h => ?_, fun h1 h2 h3 => ?_⟩
  · unfold convert_to_rgb whiteCanvasBlend
    rw [if_pos (Or.inl h), if_pos h]
  · have hne : image.mode ≠ "RGBA" := by
      rcases h with h | h <;> rw [h] <;> decide
    unfold convert_to_rgb whiteCanvasPaste
    rw [if_pos ?side, if_neg hne]
    case side =>
      rcases h with h | h
      exacts [Or.inr (Or.inr h), Or.inr (Or.inl h)]
  · unfold convert_to_rgb
    rw [if_neg]
    rintro (h | h | h) <;> [exact h1 h; exact h2 h; exact h3 h]

/-- C4, witness: one image per branch. -/
theorem convert_to_rgb_mode_cases_witness :
    convert_to_rgb sampleRGBA = whiteCanvasBlend sampleRGBA ∧
    convert_to_rgb sampleP = whiteCanvasPaste sampleP ∧
    convert_to_rgb sampleRGB = sampleRGB :=
  ⟨(convert_to_rgb_mode_cases sampleRGBA).1 rfl,
   (convert_to_rgb_mode_cases sampleP).2.1 (Or.inl rfl),
   (convert_to_rgb_mode_cases sampleRGB).2.2 (by decide) (by decide) (by decide)⟩

end Converter


namespace Converter

/-- C5: for a source name of the form `X.ext` — `ext` free of dots and
separators, `X` free of separators and not all dots — a successful conversion
produces the output name `X ++ ".jpg"`: the stem keeps everything before the
final extension segment, whatever the case of `ext`. This holds on the bare
WebP path (`process_webp_file`) and on the archive path (the conversion loop
of `process_archive_file`). -/
theorem output_naming_stem_jpg (L : Libs) (x ext : String) (data jpeg : Bytes)
    (hx1 : '/' ∉ x.data) (hx2 : ∃ c ∈ x.data, c ≠ '.')
    (he1 : '.' ∉ ext.data) (he2 : '/' ∉ ext.data)
    (hc : convert_webp_to_jpeg L data = some jpeg) :
    process_webp_file L ⟨x ++ "." ++ ext, data⟩ = [(x ++ ".jpg", jpeg)] ∧
    convertExtracted L [(x ++ "." ++ ext, data)] = [(x ++ ".jpg", jpeg)] := by
  have hstem := stem_concat x ext hx1 hx2 he1 he2
  constructor
  · show (match convert_webp_to_jpeg L data with
      | some jpeg_data =>
        [((splitext (x ++ "." ++ ext)).1 ++ ".jpg", jpeg_data)]
      | none => []) = [(x ++ ".jpg", jpeg)]
    rw [hc, hstem]
  · show (match convert_webp_to_jpeg L data with
      | some jpeg_data =>
        ((splitext (x ++ "." ++ ext)).1 ++ ".jpg", jpeg_data)
          :: convertExtracted L []
      | none => convertExtracted L []) = [(x ++ ".jpg", jpeg)]
    rw [hc, hstem]
    rfl

/-- C5, witness: `Photo.WEBP` becomes `Photo.jpg` on both paths. -/
theorem output_naming_stem_jpg_witness :
    process_webp_file webpLibs ⟨"Photo" ++ "." ++ "WEBP", [1]⟩
      = [("Photo" ++ ".jpg", [9])] ∧
    convertExtracted webpLibs [("Photo" ++ "." ++ "WEBP", [1])]
      = [("Photo" ++ ".jpg", [9])] :=
  output_naming_stem_jpg webpLibs "Photo" "WEBP" [1] [9]
    (by decide) (by decide) (by decide) (by decide) (by decide)

/-- C6: if extraction of an archive yields a listing in which one image fails
to convert, `process_archive_file` omits exactly that image and still converts
every sibling before and after it — the batch is not aborted. -/
theorem per_image_failure_skipped (L : Libs) (file_data : Bytes) (fn : String)
    (pre : List (String × Bytes)) (bad : String × Bytes)
    (post : List (String × Bytes))
    (hext : extract_webp_from_archive L file_data fn = pre ++ bad :: post)
    (hbad : convert_webp_to_jpeg L bad.2 = none) :
    process_archive_file L ⟨fn, file_data⟩
      = convertExtracted L pre ++ convertExtracted L post := by
  show convertExtracted L (extract_webp_from_archive L file_data fn) = _
  rw [hext, convertExtracted_append]
  obtain ⟨bn, bd⟩ := bad
  rw [convertExtracted_cons_fail L bn bd post hbad]

/-- C6, witness: one valid plus one corrupt WebP yield exactly the one
converted image. -/
theorem per_image_failure_skipped_witness :
    process_archive_file mixedZipLibs ⟨"a.zip", [0]⟩ = [("good.jpg", [9])] := by
  rw [per_image_failure_skipped mixedZipLibs [0] "a.zip"
    [("good.webp", [1])] ("bad.webp", [2]) [] (by decide) (by decide)]
  decide

/-- C7: the aggregate preserves discovery order — it is the concatenation of
the per-item results in upload order, and the conversion loop over one
archive is an order-preserving `filterMap` of its extraction listing. -/
theorem aggregate_preserves_order (L : Libs) (files : List UploadItem)
    (extracted : List (String × Bytes)) :
    aggregate L files = (files.map (processItem L)).flatten ∧
    convertExtracted L extracted = extracted.filterMap (fun nd =>
      (convert_webp_to_jpeg L nd.2).map
        (fun j => ((splitext nd.1).1 ++ ".jpg", j))) :=
  ⟨aggregate_eq_join L files, convertExtracted_eq_filterMap L extracted⟩

/-- C8: `convert_webp_to_jpeg` is a pure function of its input bytes — in this
embedding it is a Lean function, so two invocations on equal byte sequences
return byte-identical output. -/
theorem convert_webp_to_jpeg_deterministic (L : Libs) (b1 b2 : Bytes)
    (h : b1 = b2) :
    convert_webp_to_jpeg L b1 = convert_webp_to_jpeg L b2 := by rw [h]

/-- C8, witness. -/
theorem convert_webp_to_jpeg_deterministic_witness :
    convert_webp_to_jpeg webpLibs [1] = convert_webp_to_jpeg webpLibs [1] :=
  convert_webp_to_jpeg_deterministic webpLibs [1] [1] rfl

/-- C9: duplicate output names survive the whole pipeline — the ZIP writer is
the identity on its entry list (two entries of the same name both land in the
bundle, each with its own bytes), the cardinality rule counts them as two
(a two-element list with equal names is routed to the Archive payload), and
ZIP extraction keeps `sub/a.webp` and `a.webp` as two entries that basename
to the same `a.webp`. -/
theorem duplicates_not_deduplicated (name : String) (d1 d2 : Bytes)
    (l : List (String × Bytes)) :
    zipWrite l = l ∧
    create_zip_response ((name, d1) :: (name, d2) :: l)
      = .archive "converted_images.zip" "application/zip"
          ((name, d1) :: (name, d2) :: l) ∧
    respond ((name, d1) :: (name, d2) :: l)
      = create_zip_response ((name, d1) :: (name, d2) :: l) ∧
    extractFromZip [⟨"sub/a.webp", some d1⟩, ⟨"a.webp", some d2⟩]
      = .ok [("a.webp", d1), ("a.webp", d2)] := by
  refine ⟨zipWrite_id l, ?_, rfl, rfl⟩
  unfold create_zip_response
  rw [zipWrite_id]

/-- C10: an uploaded item whose filename is the empty string is skipped by the
aggregation loop itself: it contributes nothing to the aggregate and the
output payload is the one of the upload list without it. -/
theorem empty_filename_skipped (L : Libs) (pre post : List UploadItem)
    (item : UploadItem) (h : item.filename = "") :
    aggregate L (pre ++ item :: post) = aggregate L (pre ++ post) ∧
    convert L (pre ++ item :: post) = convert L (pre ++ post) := by
  have hproc : processItem L item = [] := by
    unfold processItem
    rw [if_pos h]
  have hagg : aggregate L (pre ++ item :: post) = aggregate L (pre ++ post) := by
    rw [aggregate_append, aggregate_append, aggregate_cons, hproc,
      List.nil_append]
  exact ⟨hagg, by rw [convert_eq_respond, convert_eq_respond, hagg]⟩

/-- C10, witness. -/
theorem empty_filename_skipped_witness :
    aggregate noLibs [⟨"", [1]⟩] = aggregate noLibs [] ∧
    convert noLibs [⟨"", [1]⟩] = convert noLibs [] :=
  empty_filename_skipped noLibs [] [] ⟨"", [1]⟩ rfl

end Converter

